import Mathlib

/-!
Verification development for the `jsonToLLMString` serializers of the
octocode-mcp repository.

Two implementations are embedded:

* `Octo.V2`: the options-based serializer of `src/unnamed/part_004`
  (`jsonToLLMString(data, options?)`), which first normalizes its input with
  `JSON.parse(JSON.stringify(data))` and then renders the resulting plain
  tree with `formatValue`.
* `Octo.Legacy`: the serializer of
  `src/packages/octocode-utils/src/jsonToLLMString.ts`
  (`jsonToLLMString(data, indentation, maxDepth, visited, parentKey,
  maxLength, maxArrayItems)`), which walks the original object graph with a
  shared `visited` set.

Plain acyclic JSON data is modelled by the inductive tree `Octo.V2.JSTree`.
Object graphs that can contain cycles and aliasing are modelled by
`Octo.JSVal` references into a heap `Octo.Heap`; this is needed because the
legacy serializer and the `JSON.stringify` normalization step observe object
identity.
-/

namespace Octo

/-- Model of a JavaScript number as it occurs in the serialized value trees.
The four IEEE-754 special cases that the source code distinguishes
(`NaN`, `Infinity`, `-Infinity`, `-0`) are explicit constructors; every
other finite double is abstracted by the decimal string that the JavaScript
`String(value)` conversion (the shortest round-trip decimal representation)
produces for it. -/
inductive JSNumber : Type
  | nan
  | posInf
  | negInf
  | negZero
  | finite (lit : String)
  deriving DecidableEq

/-- The JavaScript `String(value)` conversion on numbers: `String(NaN)` is
`"NaN"`, `String(Infinity)` is `"Infinity"`, `String(-Infinity)` is
`"-Infinity"`, `String(-0)` is `"0"`, and a finite number yields its
shortest round-trip decimal representation. -/
def numToString : JSNumber → String
  | .nan => "NaN"
  | .posInf => "Infinity"
  | .negInf => "-Infinity"
  | .negZero => "0"
  | .finite lit => lit

namespace V2

/-- A plain, acyclic JSON value tree: the domain of `formatValue` in
`src/unnamed/part_004` (after `JSON.parse(JSON.stringify(data))`
normalization all remaining values are of these shapes). -/
inductive JSTree : Type
  | null
  | bool (b : Bool)
  | num (n : JSNumber)
  | str (s : String)
  | arr (items : List JSTree)
  | obj (fields : List (String × JSTree))

/-- `SortKeysOption = 'none' | 'asc' | 'desc'` of `part_004`. -/
inductive SortKeysOption : Type
  | none
  | asc
  | desc
  deriving DecidableEq

/-- `ArrayFormatOption = 'auto' | 'brackets' | 'indented'` of `part_004`. -/
inductive ArrayFormatOption : Type
  | auto
  | brackets
  | indented
  deriving DecidableEq

/-- The resolved configuration built by `jsonToLLMString` from
`JsonToLLMStringVOptions` and `JSON_TO_LLM_DEFAULT_OPTIONS` (source lines
77-87).  `maxDepth` is an integer so that out-of-domain negative values can
be expressed; `maxChars` is `Option Nat`, where `none` plays the role of
`Number.POSITIVE_INFINITY` (the `Number.isFinite(cfg.maxChars)` test of the
source is `maxChars` being `some`). -/
structure Config : Type where
  ignoreFalsy : Bool
  maxDepth : Int
  sortKeys : SortKeysOption
  maxChars : Option Nat
  arrayFormat : ArrayFormatOption

/-- `JSON_TO_LLM_DEFAULT_OPTIONS` of `part_004`: `ignoreFalsy: true`,
`maxDepth: 10`, `sortKeys: 'asc'`, `maxChars: Infinity`,
`arrayFormat: 'auto'`. -/
def JSON_TO_LLM_DEFAULT_OPTIONS : Config :=
  { ignoreFalsy := true
    maxDepth := 10
    sortKeys := .asc
    maxChars := .none
    arrayFormat := .auto }

/-- Lowercase hexadecimal digit. -/
def hexDigit (d : Nat) : Char :=
  if d < 10 then Char.ofNat (48 + d) else Char.ofNat (87 + d)

/-- `code.toString(16).padStart(2, '0')` for `code < 256` (the only codes
the escaper feeds it): two lowercase hexadecimal digits. -/
def hex2 (n : Nat) : String :=
  String.mk [hexDigit (n / 16 % 16), hexDigit (n % 16)]

/-- One step of `escapeString` (source lines 91-134): the `switch` over the
single-character string `ch` together with the `charCodeAt(0)` default
branch.  Escapes backslash, double quote, the named control characters
`\n \r \t \b \f \v \0`, renders any other character with code point below
0x20 or equal to 0x7f as `\xHH` (two lowercase hex digits), and passes
every other character through unchanged. -/
def escapeChar (c : Char) : String :=
  if c = '\\' then "\\\\"
  else if c = '"' then "\\\""
  else if c = '\n' then "\\n"
  else if c = '\r' then "\\r"
  else if c = '\t' then "\\t"
  else if c = '\x08' then "\\b"
  else if c = '\x0c' then "\\f"
  else if c = '\x0b' then "\\v"
  else if c = '\x00' then "\\0"
  else
    let code := c.toNat
    if code < 0x20 ∨ code = 0x7f then "\\x" ++ hex2 code
    else String.singleton c

/-- `escapeString` (source lines 91-134): the per-character `StringBuilder`
loop, i.e. the concatenation of `escapeChar` over the characters of the
input. -/
def escapeString (value : String) : String :=
  String.join (value.data.map escapeChar)

/-- `formatString` (source lines 136-138). -/
def formatString (value : String) : String :=
  "\"" ++ escapeString value ++ "\""

/-- `formatPrimitive` (source lines 140-152).  The number branch mirrors the
source checks in order: `Number.isNaN`, `!Number.isFinite` (positive or
negative), `Object.is(value, -0)`, then `String(value)`.  `formatValue`
never reaches this function with an Array or Object (containers are
dispatched first); those branches correspond to the trailing
`return String(value)` fallback for host values outside the JSON model and
are rendered with the JavaScript `String({})` result. -/
def formatPrimitive : JSTree → String
  | .null => "null"
  | .str s => formatString s
  | .num n =>
    match n with
    | .nan => "NaN"
    | .posInf => "Infinity"
    | .negInf => "-Infinity"
    | .negZero => "-0"
    | .finite lit => lit
  | .bool b => if b then "true" else "false"
  | .arr _ => "[object Object]"
  | .obj _ => "[object Object]"

/-- First-match association-list lookup, the model of the JavaScript
property read `obj[k]` for plain objects. -/
def lookupJS (fields : List (String × JSTree)) (k : String) : Option JSTree :=
  List.lookup k fields

/-- Total variant of `lookupJS`.  For keys drawn from `Object.keys(obj)` the
lookup always succeeds; `.null` is the (unreachable) default. -/
def objGet (fields : List (String × JSTree)) (k : String) : JSTree :=
  (lookupJS fields k).getD .null

/-- Whether an optional value is present and `null`. -/
def isNullOpt : Option JSTree → Bool
  | some .null => true
  | _ => false

/-- Whether a value is `null`, i.e. the test `item === null`. -/
def isNull : JSTree → Bool
  | .null => true
  | _ => false

/-- The test `typeof value === 'object' && value !== null`: arrays and
objects. -/
def isContainer : JSTree → Bool
  | .arr _ => true
  | .obj _ => true
  | _ => false

/-- The test `Array.isArray(value)`. -/
def isArr : JSTree → Bool
  | .arr _ => true
  | _ => false

/-- The effective key list of an object (source lines 239-245):
`Object.keys(obj)` filtered by the `ignoreFalsy` rule
`!(cfg.ignoreFalsy && obj[k] === null)`. -/
def effectiveKeys (ignoreFalsy : Bool) (fields : List (String × JSTree)) :
    List String :=
  (fields.map Prod.fst).filter fun k =>
    !(ignoreFalsy && isNullOpt (lookupJS fields k))

/-- Modelled from the spec: `String.prototype.localeCompare` is a JavaScript
host builtin (ICU collation) with no source in this repository; the spec
describes the resulting `sortKeys` orders as lexicographic, so the
comparator is modelled by the lexicographic order on strings
(`a.localeCompare(b) <= 0` becomes `a ≤ b`). -/
def localeCompareLe (a b : String) : Bool :=
  decide (a ≤ b)

/-- Key ordering of the object branch (source lines 251-255):
`effectiveKeys.sort((a, b) => a.localeCompare(b))` for `'asc'`,
`effectiveKeys.sort((a, b) => b.localeCompare(a))` for `'desc'`, and the
original insertion order for `'none'`.  JavaScript `Array.prototype.sort`
is a stable sort, modelled by the stable `List.insertionSort`. -/
def orderedKeys (sk : SortKeysOption) (keys : List String) : List String :=
  match sk with
  | .asc => List.insertionSort (fun a b => localeCompareLe a b = true) keys
  | .desc => List.insertionSort (fun a b => localeCompareLe b a = true) keys
  | .none => keys

/-- `str.repeat(n)`. -/
def repeatStr (s : String) (n : Nat) : String :=
  String.join (List.replicate n s)

/-- `indentUnit = ' '.repeat(2)` (source line 89). -/
def indentUnit : String := "  "

/-- The JavaScript `str.includes(c)` test for a single character, on the
character list of the string. -/
def strContainsChar (s : String) (c : Char) : Bool :=
  s.data.contains c

/-- The JavaScript `str.startsWith(t)` test, on character lists. -/
def strStartsWith (s t : String) : Bool :=
  t.data.isPrefixOf s.data

/-- The JavaScript `str.endsWith(t)` test, on character lists. -/
def strEndsWith (s t : String) : Bool :=
  t.data.isSuffixOf s.data

/-- The JavaScript `str.substring(0, n)` slice, on character lists. -/
def jsSubstring (s : String) (n : Nat) : String :=
  String.mk (s.data.take n)

theorem sizeOf_lt_arr_of_mem_filter {items : List JSTree} {p : JSTree → Bool}
    {item : JSTree} (h : item ∈ items.filter p) :
    sizeOf item < sizeOf (JSTree.arr items) := by
  have h1 := List.sizeOf_lt_of_mem (List.mem_of_mem_filter h)
  have h2 : sizeOf (JSTree.arr items) = 1 + sizeOf items := by
    simp [JSTree.arr.sizeOf_spec]
  omega

theorem sizeOf_objGet_lt (fields : List (String × JSTree)) (k : String) :
    sizeOf (objGet fields k) < sizeOf (JSTree.obj fields) := by
  induction fields with
  | nil => simp [objGet, lookupJS, List.lookup]
  | cons head rest ih =>
    obtain ⟨a, b⟩ := head
    by_cases hk : k == a
    · simp only [objGet, lookupJS, List.lookup, hk, cond_true, Option.getD_some]
      simp [JSTree.obj.sizeOf_spec]
      omega
    · have hk2 : (k == a) = false := by
        simpa using hk
      simp only [objGet, lookupJS, List.lookup, hk2, cond_false] at *
      have h1 : sizeOf (JSTree.obj rest) < sizeOf (JSTree.obj ((a, b) :: rest)) := by
        simp [JSTree.obj.sizeOf_spec]
      omega

theorem sizeOf_snd_lt_obj {fields : List (String × JSTree)}
    {kv : String × JSTree} (h : kv ∈ fields) :
    sizeOf kv.2 < sizeOf (JSTree.obj fields) := by
  obtain ⟨k, v⟩ := kv
  have h1 := List.sizeOf_lt_of_mem h
  have h2 : sizeOf (JSTree.obj fields) = 1 + sizeOf fields := by
    simp [JSTree.obj.sizeOf_spec]
  have h3 : sizeOf (k, v) = 1 + sizeOf k + sizeOf v := rfl
  show sizeOf v < sizeOf (JSTree.obj fields)
  omega

/-- One rendered item line of the indented-array branch (source lines
199-229), given the item container flag and its already-rendered string: a
multi-line item is used as-is (the source splits it into lines, maps every
line to itself and joins them back, source lines 204-212), a single-line
container rendering that is not a bracket line and not an empty-container
marker is used as-is, and everything else gets the item indentation
prepended. -/
def renderArrItemIndented (itemIndent : String) (isCont : Bool)
    (rendered : String) : String :=
  if strContainsChar rendered '\n' then rendered
  else if isCont && !strStartsWith rendered "[" &&
      rendered != "EmptyObject" && rendered != "EmptyArray" then rendered
  else itemIndent ++ rendered

/-- The line(s) contributed by one object key (source lines 259-294), given
the flags of its value and its already-rendered string, consed onto the
following lines: an empty rendering is skipped; an inline value (a
non-container, an empty-container marker, or a single-line bracket array)
renders as one `key value` line; anything else renders the key alone and
then the value block. -/
def objKeyLines (indent key : String) (isCont isArrVal : Bool)
    (rendered : String) (acc : List String) : List String :=
  if rendered = "" then acc
  else
    let shouldBeInline :=
      !isCont ||
      (rendered == "EmptyArray" || rendered == "EmptyObject") ||
      (isArrVal && strStartsWith rendered "[" && strEndsWith rendered "]" &&
        !(strContainsChar rendered '\n'))
    if shouldBeInline then (indent ++ key ++ " " ++ rendered) :: acc
    else (indent ++ key) :: rendered :: acc

/-- `formatValue` (source lines 154-301): the recursive rendering of one
value at a given `depth`, the source in order: the depth guard first;
arrays render as `EmptyArray`, a single bracket line, or an indented block
of `renderArrItemIndented` lines; objects render their `effectiveKeys` in
`orderedKeys` order through `objKeyLines`; everything else goes to
`formatPrimitive`. -/
def formatValue (cfg : Config) (value : JSTree) (depth : Nat) : String :=
  if (depth : Int) > cfg.maxDepth then "[Max depth reached]"
  else
    match value with
    | .arr items =>
      if items.length = 0 then "EmptyArray"
      else
        let effectiveItems := items.filter fun item =>
          !(cfg.ignoreFalsy && isNull item)
        if effectiveItems.length = 0 then "EmptyArray"
        else
          let shouldUseBrackets :=
            match cfg.arrayFormat with
            | .brackets => true
            | .indented => false
            | .auto => effectiveItems.all fun item => !isContainer item
          if shouldUseBrackets then
            "[" ++ String.intercalate ", "
              (effectiveItems.attach.map fun item =>
                formatValue cfg item.val depth) ++ "]"
          else
            let itemIndent := repeatStr indentUnit (depth + 1)
            let renderedItems := effectiveItems.attach.map fun item =>
              renderArrItemIndented itemIndent (isContainer item.val)
                (formatValue cfg item.val (depth + 1))
            let arrayIndent := repeatStr indentUnit depth
            arrayIndent ++ "[\n" ++ String.intercalate "\n" renderedItems ++
              "\n" ++ arrayIndent ++ "]"
    | .obj fields =>
      let eff := effectiveKeys cfg.ignoreFalsy fields
      if eff.length = 0 then "EmptyObject"
      else
        let keysOrdered := orderedKeys cfg.sortKeys eff
        let indent := repeatStr indentUnit depth
        let lines := keysOrdered.attach.foldr (fun key acc =>
          objKeyLines indent key.val (isContainer (objGet fields key.val))
            (isArr (objGet fields key.val))
            (formatValue cfg (objGet fields key.val) (depth + 1)) acc) []
        String.intercalate "\n" lines
    | v => formatPrimitive v
termination_by sizeOf value
decreasing_by
  all_goals first
    | exact sizeOf_lt_arr_of_mem_filter item.property
    | exact sizeOf_objGet_lt _ _

/-- The input normalization `JSON.parse(JSON.stringify(data))` of
`jsonToLLMString` (source line 61), restricted to acyclic trees, on which
it always succeeds: the non-finite numbers `NaN`, `Infinity` and
`-Infinity` stringify as `null`, negative zero stringifies as `"0"` and
parses back as plain zero, and containers are rebuilt element-wise.  Host
values such as `undefined`, functions or `Date` are outside the `JSTree`
model. -/
def jsNormalize : JSTree → JSTree
  | .null => .null
  | .bool b => .bool b
  | .num .nan => .null
  | .num .posInf => .null
  | .num .negInf => .null
  | .num .negZero => .num (.finite "0")
  | .num (.finite lit) => .num (.finite lit)
  | .str s => .str s
  | .arr items => .arr (items.attach.map fun item => jsNormalize item.val)
  | .obj fields =>
    .obj (fields.attach.map fun kv => (kv.val.1, jsNormalize kv.val.2))
termination_by t => sizeOf t
decreasing_by
  · exact lt_trans (List.sizeOf_lt_of_mem item.property)
      (by simp [JSTree.arr.sizeOf_spec])
  · exact sizeOf_snd_lt_obj kv.property

/-- The `PREFIX` header constant of `part_004` (source line 1). -/
def PREFIX_STR : String :=
  "#converted from json # Format: 2-space indents per level. Objects: key value. Simple arrays: [item, item]. Complex arrays: indented items."

/-- The truncation footer of the budget enforcer (source line 306),
`\n[Output truncated at <maxChars> chars]`. -/
def footer (maxChars : Nat) : String :=
  "\n[Output truncated at " ++ toString maxChars ++ " chars]"

/-- The budget enforcement of `jsonToLLMString` (source lines 305-310): if
`maxChars` is finite and the composed output is longer, keep
`Math.max(0, maxChars - footer.length)` leading characters (natural
subtraction is exactly `Math.max(0, ...)` here) and append the footer;
otherwise return the text unchanged. -/
def applyBudget (text : String) (maxChars : Option Nat) : String :=
  match maxChars with
  | .none => text
  | .some m =>
    if m < text.length then
      jsSubstring text (m - (footer m).length) ++ footer m
    else text

/-- `jsonToLLMString` of `part_004` (source lines 53-318) on an acyclic
value tree, where the `JSON.parse(JSON.stringify(data))` normalization is
total: normalize, render `formatValue` at depth 0 below the `PREFIX`
header, then enforce the character budget.  The merging of caller options
with `JSON_TO_LLM_DEFAULT_OPTIONS` (source lines 77-87) is modelled by the
caller passing the fully resolved `Config`. -/
def jsonToLLMString (data : JSTree) (cfg : Config) : String :=
  let normalizedData := jsNormalize data
  let body := formatValue cfg normalizedData 0
  let full := PREFIX_STR ++ "\n" ++ body
  applyBudget full cfg.maxChars

end V2

/-- A JavaScript value as the serializers see it before any normalization:
primitives are immediate, arrays and plain objects are references into a
heap, so that object identity (which both cycle-detection mechanisms
observe) is represented. -/
inductive JSVal : Type
  | null
  | bool (b : Bool)
  | num (n : JSNumber)
  | str (s : String)
  | ref (id : Nat)
  deriving DecidableEq

/-- The contents of one heap object. -/
inductive JSObj : Type
  | arr (items : List JSVal)
  | obj (fields : List (String × JSVal))

/-- An object heap: every identifier resolves to an object (JavaScript
references cannot dangle). -/
abbrev Heap : Type := Nat → JSObj

namespace V2

/-- The error message thrown by `part_004` (source lines 65-69) when
`JSON.stringify` reports a circular structure. -/
def circularMsg : String :=
  "Circular structure detected - cannot serialize to JSON"

/-- `JSON.parse(JSON.stringify(data))` on the object graph, as invoked by
`part_004` (source lines 58-75): a depth-first copy that tracks the chain
of ancestor object identities exactly as `JSON.stringify` does, turns a
detected circular structure into the rethrown `circularMsg` error, and
applies the same value conversions as `jsNormalize`.  `fuel` bounds the
recursion depth of the model: `none` means the bound was too small; any
`fuel` exceeding the longest acyclic reference chain of the input is
enough. -/
def normalizeG (h : Heap) :
    Nat → List Nat → JSVal → Option (Except String JSTree)
  | 0, _, _ => .none
  | _ + 1, _, .null => some (.ok .null)
  | _ + 1, _, .bool b => some (.ok (.bool b))
  | _ + 1, _, .str s => some (.ok (.str s))
  | _ + 1, _, .num .nan => some (.ok .null)
  | _ + 1, _, .num .posInf => some (.ok .null)
  | _ + 1, _, .num .negInf => some (.ok .null)
  | _ + 1, _, .num .negZero => some (.ok (.num (.finite "0")))
  | _ + 1, _, .num (.finite lit) => some (.ok (.num (.finite lit)))
  | fuel + 1, ancestors, .ref id =>
    if id ∈ ancestors then some (.error circularMsg)
    else
      match h id with
      | .arr items =>
        (items.foldl (fun acc item =>
          match acc with
          | .none => .none
          | some (.error e) => some (.error e)
          | some (.ok ts) =>
            match normalizeG h fuel (id :: ancestors) item with
            | .none => .none
            | some (.error e) => some (.error e)
            | some (.ok t) => some (.ok (t :: ts))) (some (.ok []))).map
          (Except.map fun ts => JSTree.arr ts.reverse)
      | .obj fields =>
        (fields.foldl (fun acc kv =>
          match acc with
          | .none => .none
          | some (.error e) => some (.error e)
          | some (.ok tfs) =>
            match normalizeG h fuel (id :: ancestors) kv.2 with
            | .none => .none
            | some (.error e) => some (.error e)
            | some (.ok t) => some (.ok ((kv.1, t) :: tfs))) (some (.ok []))).map
          (Except.map fun tfs => JSTree.obj tfs.reverse)

/-- `jsonToLLMString` of `part_004` on the original object graph, including
the `JSON.parse(JSON.stringify(data))` step that throws on circular
structures (source lines 58-75); the thrown error is the `Except.error`
result.  `fuel` is the recursion bound of the normalization model. -/
def jsonToLLMStringG (h : Heap) (data : JSVal) (cfg : Config) (fuel : Nat) :
    Except String String :=
  match normalizeG h fuel [] data with
  | .none => .error "[model] insufficient normalization fuel"
  | some (.error e) => .error e
  | some (.ok t) =>
    .ok (applyBudget (PREFIX_STR ++ "\n" ++ formatValue cfg t 0) cfg.maxChars)

end V2


namespace Legacy

/-- The semantic label table of `getSemanticLabel`
(`jsonToLLMString.ts` lines 71-167). -/
def labelMap : List (String × String) :=
  [("path", "File"), ("size", "Size"), ("data", "Contents"),
   ("content", "Content"), ("text", "Text"), ("body", "Body"),
   ("message", "Message"),
   ("items", "Items"), ("children", "Subitems"), ("files", "Files"),
   ("results", "Results"), ("matches", "Matches"),
   ("type", "Type"), ("name", "Name"), ("value", "Value"),
   ("description", "Description"), ("title", "Title"), ("summary", "Summary"),
   ("owner", "Owner"), ("repo", "Repository"), ("branch", "Branch"),
   ("commit", "Commit"), ("sha", "SHA"), ("author", "Author"),
   ("created", "Created"), ("updated", "Updated"), ("pushed", "Last Pushed"),
   ("stars", "Stars"), ("forks", "Forks"), ("language", "Language"),
   ("topics", "Topics"), ("license", "License"),
   ("version", "Version"), ("package", "Package"),
   ("dependencies", "Dependencies"), ("devdependencies", "Dev Dependencies"),
   ("scripts", "Scripts"), ("engines", "Engines"), ("keywords", "Keywords"),
   ("homepage", "Homepage"), ("repository", "Repository"), ("bugs", "Bugs"),
   ("maintainers", "Maintainers"),
   ("id", "ID"), ("url", "URL"), ("link", "Link"), ("email", "Email"),
   ("phone", "Phone"), ("address", "Address"), ("city", "City"),
   ("country", "Country"), ("date", "Date"), ("time", "Time"),
   ("timestamp", "Timestamp"),
   ("status", "Status"), ("state", "State"), ("active", "Active"),
   ("enabled", "Enabled"), ("visible", "Visible"), ("public", "Public"),
   ("private", "Private"),
   ("count", "Count"), ("total", "Total"), ("number", "Number"),
   ("amount", "Amount"), ("quantity", "Quantity"), ("score", "Score"),
   ("rating", "Rating"),
   ("error", "Error"), ("warning", "Warning"), ("info", "Info"),
   ("debug", "Debug"), ("trace", "Trace"), ("stack", "Stack")]

/-- ASCII model of `String.prototype.toLowerCase` on one character (the
label table keys are ASCII, so the ASCII case fold is all the lookup can
observe). -/
def jsToLowerChar (c : Char) : Char :=
  if 65 ≤ c.toNat ∧ c.toNat ≤ 90 then Char.ofNat (c.toNat + 32) else c

/-- ASCII model of `key.toLowerCase()`. -/
def jsToLower (s : String) : String :=
  String.mk (s.data.map jsToLowerChar)

/-- ASCII model of `String.prototype.toUpperCase` on one character. -/
def jsToUpperChar (c : Char) : Char :=
  if 97 ≤ c.toNat ∧ c.toNat ≤ 122 then Char.ofNat (c.toNat - 32) else c

/-- `getSemanticLabel` (`jsonToLLMString.ts` lines 71-167): look the
lowercased key up in `labelMap`; otherwise capitalize the first character
(`key.charAt(0).toUpperCase() + key.slice(1)`, which leaves the empty
string unchanged). -/
def getSemanticLabel (key : String) : String :=
  match List.lookup (jsToLower key) labelMap with
  | some label => label
  | none =>
    match key.data with
    | [] => ""
    | c :: rest => String.mk (jsToUpperChar c :: rest)

/-- The rendering of one item of a simple (all-primitive) array
(`jsonToLLMString.ts` lines 223-229): strings pass through raw, booleans
render `yes`/`no`, everything else is `String(item)`.  The reference
branch is unreachable because a simple array contains no objects. -/
def simpleItemStr : JSVal → String
  | .str s => s
  | .bool b => if b then "yes" else "no"
  | .null => "null"
  | .num n => numToString n
  | .ref _ => "[object Object]"

/-- The test `typeof item !== 'object' || item === null`: an item that is
not a heap reference. -/
def isSimpleVal : JSVal → Bool
  | .ref _ => false
  | _ => true

/-- First-match lookup modelling the property read `obj[key]`; for keys
drawn from `Object.keys` the lookup always succeeds, `.null` is the
unreachable default. -/
def objGetV (fields : List (String × JSVal)) (k : String) : JSVal :=
  (List.lookup k fields).getD .null

/-- The primitive rendering of the recursive path
(`jsonToLLMString.ts` lines 169-188): strings longer than `maxLength` are
truncated with a `... [truncated]` marker, booleans render `yes`/`no`,
`null` renders `none`, numbers render via `String(data)`.  References are
handled before this point. -/
def renderPrim (data : JSVal) (maxLength : Nat) : String :=
  match data with
  | .str s =>
    if maxLength < s.length then V2.jsSubstring s maxLength ++ "... [truncated]"
    else s
  | .bool b => if b then "yes" else "no"
  | .null => "none"
  | .num n => numToString n
  | .ref _ => ""

/-- The inline rendering of a primitive object property value
(`jsonToLLMString.ts` lines 318-333): the string itself with no length
truncation, `none` for null, `yes`/`no` for booleans, `String(value)`
otherwise.  References are handled by the container branch before this
point. -/
def renderPropPrim : JSVal → String
  | .str s => s
  | .null => "none"
  | .bool b => if b then "yes" else "no"
  | .num n => numToString n
  | .ref _ => ""

/-- One step of the fold over the displayed items of a non-simple array
(`jsonToLLMString.ts` lines 238-257): `acc` carries the rendered item lines
so far and the shared visited set, `p` is an item paired with its index,
and `go` is the recursive rendering call at the next indentation level.
A multi-line item renders as `Item N:` followed by its block, a
single-line item renders inline as `Item N: ...`. -/
def arrItemStep (go : JSVal → List Nat → Option (String × List Nat))
    (indent : String) (acc : Option (List String × List Nat))
    (p : Nat × JSVal) : Option (List String × List Nat) :=
  match acc with
  | .none => .none
  | some (lines, vis) =>
    match go p.2 vis with
    | .none => .none
    | some (itemStr, vis2) =>
      let line :=
        if V2.strContainsChar itemStr '\n' then
          indent ++ "Item " ++ toString (p.1 + 1) ++ ":\n" ++ itemStr
        else
          indent ++ "Item " ++ toString (p.1 + 1) ++ ": " ++ itemStr
      some (lines ++ [line], vis2)

/-- One step of the fold over the keys of an object
(`jsonToLLMString.ts` lines 273-334): `acc` carries the rendered key lines
so far and the shared visited set, `go` is the recursive rendering call at
the next indentation level receiving the key as new parent key.  An empty
container value renders inline as `Label: empty` without touching the
visited set; another container value is rendered recursively and placed
inline or on its own block depending on whether the rendering is
multi-line; a primitive value renders inline through `renderPropPrim`. -/
def objKeyStep (h : Heap)
    (go : JSVal → String → List Nat → Option (String × List Nat))
    (fields : List (String × JSVal)) (indent : String)
    (acc : Option (List String × List Nat)) (key : String) :
    Option (List String × List Nat) :=
  match acc with
  | .none => .none
  | some (lines, vis) =>
    let value := objGetV fields key
    let semanticLabel := getSemanticLabel key
    match value with
    | .ref vid =>
      match h vid with
      | .arr [] => some (lines ++ [indent ++ semanticLabel ++ ": empty"], vis)
      | .obj [] => some (lines ++ [indent ++ semanticLabel ++ ": empty"], vis)
      | _ =>
        match go value key vis with
        | .none => .none
        | some (nestedContent, vis2) =>
          let line :=
            if V2.strContainsChar nestedContent '\n' then
              indent ++ semanticLabel ++ ":\n" ++ nestedContent
            else indent ++ semanticLabel ++ ": " ++ nestedContent
          some (lines ++ [line], vis2)
    | v =>
      some (lines ++ [indent ++ semanticLabel ++ ": " ++ renderPropPrim v],
        vis)

/-- The recursive body of the legacy `jsonToLLMString`
(`jsonToLLMString.ts` lines 16-340) for every call with a non-null
`visited` set, i.e. everything except the root JSON-string special case.
The JavaScript `Set` of visited object identities is mutated in place and
shared across the whole traversal (it is never popped), so it is threaded
through every call and returned together with the rendered string.  `fuel`
bounds the recursion depth of the model; each recursive call of the source
increases `indentation` by one and `indentation > maxDepth` returns
immediately, so `maxDepth + 2` fuel at indentation 0 is always enough
(`evalL_isSome`).  The `Date`, `RegExp` and function special cases of the
source are outside the JSON value model. -/
def evalL (h : Heap) :
    Nat → JSVal → Nat → Nat → List Nat → String → Nat → Nat →
    Option (String × List Nat)
  | 0, _, _, _, _, _, _, _ => .none
  | fuel + 1, data, indentation, maxDepth, visited, parentKey, maxLength,
      maxArrayItems =>
    if maxDepth < indentation then some ("[Max depth reached]", visited)
    else
      match data with
      | .ref id =>
        if id ∈ visited then some ("[Circular reference]", visited)
        else
          let visited1 := id :: visited
          let indent := V2.repeatStr " " (indentation * 2)
          match h id with
          | .arr items =>
            if items.length = 0 then some ("empty", visited1)
            else
              let displayItems := items.take maxArrayItems
              let hasMore := maxArrayItems < items.length
              let isSimpleArray := displayItems.all isSimpleVal
              if isSimpleArray then
                let result :=
                  String.intercalate ", " (displayItems.map simpleItemStr)
                let listContent :=
                  if hasMore then
                    result ++ "... [" ++
                      toString (items.length - maxArrayItems) ++ " more items]"
                  else result
                some ("LIST: " ++ listContent, visited1)
              else
                match displayItems.enum.foldl
                    (arrItemStep (fun v vis =>
                      evalL h fuel v (indentation + 1) maxDepth vis parentKey
                        maxLength maxArrayItems) indent)
                    (some ([], visited1)) with
                | .none => .none
                | some (lines, visOut) =>
                  let result := String.intercalate "\n" lines
                  let result2 :=
                    if hasMore then
                      result ++ "\n" ++ indent ++ "... [" ++
                        toString (items.length - maxArrayItems) ++ " more items]"
                    else result
                  some (result2, visOut)
          | .obj fields =>
            let keys := fields.map Prod.fst
            if keys.length = 0 then some ("empty", visited1)
            else
              match keys.foldl
                  (objKeyStep h (fun v key vis =>
                    evalL h fuel v (indentation + 1) maxDepth vis key
                      maxLength maxArrayItems) fields indent)
                  (some ([], visited1)) with
              | .none => .none
              | some (lines, visOut) =>
                some (String.intercalate "\n" lines, visOut)
      | prim => some (renderPrim prim maxLength, visited)

/-- The legacy `jsonToLLMString` entry point (`jsonToLLMString.ts` lines
16-52 together with the recursive body `evalL`): at the root
(`visited === null`) a string input is first offered to `JSON.parse`; on
success the parsed value is rendered below a `[Transformed from JSON]`
line with a fresh empty visited set, on failure the string itself is
returned with the root truncation rule.  `jsonParse` abstracts the
`JSON.parse` host builtin.  Non-string roots go straight to the recursive
body with a fresh empty visited set, indentation 0 and parent key `''`.
The source defaults are `maxDepth = 10`, `maxLength = 1000`,
`maxArrayItems = 50`. -/
def jsonToLLMString (jsonParse : String → Option JSVal) (h : Heap)
    (data : JSVal) (maxDepth maxLength maxArrayItems : Nat) : Option String :=
  match data with
  | .str s =>
    match jsonParse s with
    | some parsed =>
      (evalL h (maxDepth + 2) parsed 0 maxDepth [] "" maxLength
        maxArrayItems).map fun r => "[Transformed from JSON]\n" ++ r.1
    | .none =>
      some (if maxLength < s.length then
        V2.jsSubstring s maxLength ++ "... [truncated]"
      else s)
  | _ =>
    (evalL h (maxDepth + 2) data 0 maxDepth [] "" maxLength
      maxArrayItems).map Prod.fst

end Legacy

namespace V2

/-- The restricted alphabet of the escaper: exactly the code points that
`escapeChar` does not pass through unchanged (every code point below 0x20,
0x7f, backslash and double quote). -/
def restrictedCode (n : Nat) : Bool :=
  decide (n < 0x20 ∨ n = 0x7f ∨ n = 92 ∨ n = 34)

/-- `escapeChar` expressed on code points: the `switch` cases of the source
are single-character strings whose code points are the listed numbers
(92 backslash, 34 double quote, 10 newline, 13 carriage return, 9 tab,
8 backspace, 12 form feed, 11 vertical tab, 0 NUL). -/
def escCode (n : Nat) : String :=
  if n = 92 then "\\\\"
  else if n = 34 then "\\\""
  else if n = 10 then "\\n"
  else if n = 13 then "\\r"
  else if n = 9 then "\\t"
  else if n = 8 then "\\b"
  else if n = 12 then "\\f"
  else if n = 11 then "\\v"
  else if n = 0 then "\\0"
  else if n < 0x20 ∨ n = 0x7f then "\\x" ++ hex2 n
  else String.singleton (Char.ofNat n)

theorem char_eq_of_toNat_eq {c d : Char} (h : c.toNat = d.toNat) : c = d := by
  have h2 := congrArg Char.ofNat h
  rwa [Char.ofNat_toNat, Char.ofNat_toNat] at h2

theorem escapeChar_eq_escCode (c : Char) : escapeChar c = escCode c.toNat := by
  rcases eq_or_ne c '\\' with h1 | h1
  · subst h1; rfl
  rcases eq_or_ne c '"' with h2 | h2
  · subst h2; rfl
  rcases eq_or_ne c '\n' with h3 | h3
  · subst h3; rfl
  rcases eq_or_ne c '\r' with h4 | h4
  · subst h4; rfl
  rcases eq_or_ne c '\t' with h5 | h5
  · subst h5; rfl
  rcases eq_or_ne c '\x08' with h6 | h6
  · subst h6; rfl
  rcases eq_or_ne c '\x0c' with h7 | h7
  · subst h7; rfl
  rcases eq_or_ne c '\x0b' with h8 | h8
  · subst h8; rfl
  rcases eq_or_ne c '\x00' with h9 | h9
  · subst h9; rfl
  have n1 : c.toNat ≠ 92 := fun hn => h1 (char_eq_of_toNat_eq hn)
  have n2 : c.toNat ≠ 34 := fun hn => h2 (char_eq_of_toNat_eq hn)
  have n3 : c.toNat ≠ 10 := fun hn => h3 (char_eq_of_toNat_eq hn)
  have n4 : c.toNat ≠ 13 := fun hn => h4 (char_eq_of_toNat_eq hn)
  have n5 : c.toNat ≠ 9 := fun hn => h5 (char_eq_of_toNat_eq hn)
  have n6 : c.toNat ≠ 8 := fun hn => h6 (char_eq_of_toNat_eq hn)
  have n7 : c.toNat ≠ 12 := fun hn => h7 (char_eq_of_toNat_eq hn)
  have n8 : c.toNat ≠ 11 := fun hn => h8 (char_eq_of_toNat_eq hn)
  have n9 : c.toNat ≠ 0 := fun hn => h9 (char_eq_of_toNat_eq hn)
  rw [escapeChar, escCode]
  simp only [if_neg h1, if_neg h2, if_neg h3, if_neg h4, if_neg h5, if_neg h6,
    if_neg h7, if_neg h8, if_neg h9, if_neg n1, if_neg n2, if_neg n3,
    if_neg n4, if_neg n5, if_neg n6, if_neg n7, if_neg n8, if_neg n9]
  split
  · rfl
  · rw [Char.ofNat_toNat]

theorem restrictedCode_lt_128 {n : Nat} (h : restrictedCode n = true) :
    n < 128 := by
  have h2 := of_decide_eq_true h
  omega

theorem escCode_map_nodup :
    (((List.range 128).filter restrictedCode).map escCode).Nodup := by decide

theorem escCode_inj_on_restricted {n₁ n₂ : Nat}
    (h1 : restrictedCode n₁ = true) (h2 : restrictedCode n₂ = true)
    (he : escCode n₁ = escCode n₂) : n₁ = n₂ := by
  have m1 : n₁ ∈ (List.range 128).filter restrictedCode :=
    List.mem_filter.mpr ⟨List.mem_range.mpr (restrictedCode_lt_128 h1), h1⟩
  have m2 : n₂ ∈ (List.range 128).filter restrictedCode :=
    List.mem_filter.mpr ⟨List.mem_range.mpr (restrictedCode_lt_128 h2), h2⟩
  exact List.inj_on_of_nodup_map escCode_map_nodup m1 m2 he

theorem hexDigit_mem_alphabet :
    ∀ m : Nat, m < 16 → hexDigit m ∈ "0123456789abcdef".data := by decide

/-- C5: the escape function is total over all strings (it is a total Lean
function, and `escapeString` is exactly the concatenation of `escapeChar`
over the characters of the input) and maps every character to itself
except: backslash, double quote, newline, carriage return, tab, backspace,
form feed, vertical tab and NUL to their named escapes, and any other
character with code point below 0x20 or equal to 0x7f to a `\xHH` escape
with two lowercase hexadecimal digits; it is injective on this restricted
alphabet. -/
theorem c5_escape_total_and_injective :
    (∀ s : String, escapeString s = String.join (s.data.map escapeChar)) ∧
    escapeChar '\\' = "\\\\" ∧ escapeChar '"' = "\\\"" ∧
    escapeChar '\n' = "\\n" ∧ escapeChar '\r' = "\\r" ∧
    escapeChar '\t' = "\\t" ∧ escapeChar '\x08' = "\\b" ∧
    escapeChar '\x0c' = "\\f" ∧ escapeChar '\x0b' = "\\v" ∧
    escapeChar '\x00' = "\\0" ∧
    (∀ c : Char, restrictedCode c.toNat = false →
      escapeChar c = String.singleton c) ∧
    (∀ c : Char, (c.toNat < 0x20 ∨ c.toNat = 0x7f) →
      c.toNat ∉ ([0, 8, 9, 10, 11, 12, 13] : List Nat) →
      escapeChar c = "\\x" ++ hex2 c.toNat ∧ (hex2 c.toNat).length = 2 ∧
      ∀ d ∈ (hex2 c.toNat).data, d ∈ "0123456789abcdef".data) ∧
    (∀ c₁ c₂ : Char, restrictedCode c₁.toNat = true →
      restrictedCode c₂.toNat = true → escapeChar c₁ = escapeChar c₂ →
      c₁ = c₂) := by
  refine ⟨fun s => rfl, rfl, rfl, rfl, rfl, rfl, rfl, rfl, rfl, rfl, ?_, ?_, ?_⟩
  · intro c h
    have hp := of_decide_eq_false h
    push_neg at hp
    obtain ⟨hlt, h127, h92, h34⟩ := hp
    rw [escapeChar_eq_escCode, escCode]
    rw [if_neg h92, if_neg h34, if_neg (by omega), if_neg (by omega),
      if_neg (by omega), if_neg (by omega), if_neg (by omega),
      if_neg (by omega), if_neg (by omega),
      if_neg (by push_neg; exact ⟨hlt, h127⟩), Char.ofNat_toNat]
  · intro c hr hn
    simp only [List.mem_cons, List.not_mem_nil, or_false, not_or] at hn
    obtain ⟨e0, e8, e9, e10, e11, e12, e13⟩ := hn
    have h92 : c.toNat ≠ 92 := by omega
    have h34 : c.toNat ≠ 34 := by omega
    refine ⟨?_, rfl, ?_⟩
    · rw [escapeChar_eq_escCode, escCode]
      rw [if_neg h92, if_neg h34, if_neg e10, if_neg e13, if_neg e9,
        if_neg e8, if_neg e12, if_neg e11, if_neg e0, if_pos hr]
    · intro d hd
      have hcases : d = hexDigit (c.toNat / 16 % 16) ∨ d = hexDigit (c.toNat % 16) := by
        simpa [hex2] using hd
      rcases hcases with h | h
      · subst h
        exact hexDigit_mem_alphabet _ (by omega)
      · subst h
        exact hexDigit_mem_alphabet _ (by omega)
  · intro c₁ c₂ h1 h2 he
    rw [escapeChar_eq_escCode, escapeChar_eq_escCode] at he
    exact char_eq_of_toNat_eq (escCode_inj_on_restricted h1 h2 he)

/-- Witness for C5 at concrete characters: the letter `a` passes through
unchanged and the control character 0x01 becomes `\x01`; two distinct
restricted characters with equal escapes would be equal. -/
theorem c5_escape_witness :
    escapeChar 'a' = String.singleton 'a' ∧
    escapeChar '\x01' = "\\x" ++ hex2 1 ∧
    (escapeChar '\x01' = escapeChar '\x02' → '\x01' = '\x02') := by
  obtain ⟨-, -, -, -, -, -, -, -, -, -, hpass, hhex, hinj⟩ :=
    c5_escape_total_and_injective
  refine ⟨hpass 'a' (by decide), ?_, ?_⟩
  · exact (hhex '\x01' (by decide) (by decide)).1
  · intro he
    exact hinj '\x01' '\x02' (by decide) (by decide) he

instance : IsTotal String fun a b => localeCompareLe a b = true :=
  ⟨fun a b => by
    simp only [localeCompareLe, decide_eq_true_eq]
    exact le_total a b⟩

instance : IsTrans String fun a b => localeCompareLe a b = true :=
  ⟨fun a b c => by
    simp only [localeCompareLe, decide_eq_true_eq]
    exact le_trans⟩

instance : IsTotal String fun a b => localeCompareLe b a = true :=
  ⟨fun a b => by
    simp only [localeCompareLe, decide_eq_true_eq]
    exact le_total b a⟩

instance : IsTrans String fun a b => localeCompareLe b a = true :=
  ⟨fun a b c => by
    simp only [localeCompareLe, decide_eq_true_eq]
    intro h1 h2
    exact le_trans h2 h1⟩

theorem isNullOpt_eq_true_iff (o : Option JSTree) :
    isNullOpt o = true ↔ o = some JSTree.null := by
  cases o with
  | none => simp [isNullOpt]
  | some t => cases t <;> simp [isNullOpt]

theorem orderedKeys_perm (sk : SortKeysOption) (keys : List String) :
    (orderedKeys sk keys).Perm keys := by
  cases sk with
  | asc => exact List.perm_insertionSort _ keys
  | desc => exact List.perm_insertionSort _ keys
  | none => exact List.Perm.refl keys

theorem mem_effectiveKeys_iff (iF : Bool) (fields : List (String × JSTree))
    (k : String) :
    k ∈ effectiveKeys iF fields ↔
      k ∈ fields.map Prod.fst ∧
        ¬(iF = true ∧ lookupJS fields k = some JSTree.null) := by
  rw [effectiveKeys, List.mem_filter]
  refine and_congr_right fun _ => ?_
  cases hif : iF with
  | false => simp
  | true =>
    cases hl : lookupJS fields k with
    | none => simp [isNullOpt]
    | some t => cases t <;> simp [isNullOpt]

/-- C7: for every object and every `sortKeys` mode, the rendered key list
(`orderedKeys` applied to `effectiveKeys`, which is exactly what the object
branch of `formatValue` renders) contains a key if and only if it is an
input key that is not filtered by `ignoreFalsy` (a key whose looked-up
value is `null` while `ignoreFalsy` is on) — membership is independent of
the mode — and the keys are a permutation of the filtered keys in
lexicographically ascending order for `asc`, descending for `desc`, and
original insertion order for `none`. -/
theorem c7_keys_membership_and_order (iF : Bool)
    (fields : List (String × JSTree)) :
    (∀ (sk : SortKeysOption) (k : String),
      k ∈ orderedKeys sk (effectiveKeys iF fields) ↔
        k ∈ fields.map Prod.fst ∧
          ¬(iF = true ∧ lookupJS fields k = some JSTree.null)) ∧
    (∀ sk : SortKeysOption,
      (orderedKeys sk (effectiveKeys iF fields)).Perm
        (effectiveKeys iF fields)) ∧
    List.Sorted (fun a b : String => a ≤ b)
      (orderedKeys .asc (effectiveKeys iF fields)) ∧
    List.Sorted (fun a b : String => b ≤ a)
      (orderedKeys .desc (effectiveKeys iF fields)) ∧
    orderedKeys SortKeysOption.none (effectiveKeys iF fields) =
      effectiveKeys iF fields := by
  refine ⟨?_, fun sk => orderedKeys_perm sk _, ?_, ?_, rfl⟩
  · intro sk k
    rw [(orderedKeys_perm sk _).mem_iff]
    exact mem_effectiveKeys_iff iF fields k
  · have hs := List.sorted_insertionSort
      (fun a b : String => localeCompareLe a b = true) (effectiveKeys iF fields)
    exact hs.imp fun h => by
      simpa only [localeCompareLe, decide_eq_true_eq] using h
  · have hs := List.sorted_insertionSort
      (fun a b : String => localeCompareLe b a = true) (effectiveKeys iF fields)
    exact hs.imp fun h => by
      simpa only [localeCompareLe, decide_eq_true_eq] using h

theorem length_jsSubstring (s : String) (n : Nat) :
    (jsSubstring s n).length = min n s.length := by
  rw [jsSubstring, String.length_mk, List.length_take]
  rfl

theorem jsSubstring_append_drop (s : String) (n : Nat) :
    jsSubstring s n ++ String.mk (s.data.drop n) = s := by
  show String.mk (s.data.take n ++ s.data.drop n) = s
  rw [List.take_append_drop]

/-- C2 (amended): whenever the truncation footer itself fits into the
budget, the budget enforcer of `part_004` returns, for any over-budget
text, a string of length exactly `maxChars` that is a prefix of the text
followed by the intact footer; and under the same proviso the length of
any `jsonToLLMString` output is at most `maxChars`.  (When `maxChars` is
smaller than the footer, the enforcer returns the bare footer and exceeds
the budget: see the counterexample.) -/
theorem c2_budget_amended :
    (∀ (text : String) (m : Nat), (footer m).length ≤ m → m < text.length →
      applyBudget text (some m) =
        jsSubstring text (m - (footer m).length) ++ footer m ∧
      (applyBudget text (some m)).length = m ∧
      ∃ rest : String,
        text = jsSubstring text (m - (footer m).length) ++ rest) ∧
    (∀ (data : JSTree) (cfg : Config) (m : Nat), cfg.maxChars = some m →
      (footer m).length ≤ m → (jsonToLLMString data cfg).length ≤ m) := by
  have happ : ∀ (text : String) (m : Nat), (footer m).length ≤ m →
      m < text.length → (applyBudget text (some m)).length = m := by
    intro text m hf hm
    rw [applyBudget]
    rw [if_pos hm]
    rw [String.length_append, length_jsSubstring]
    have : min (m - (footer m).length) text.length = m - (footer m).length := by
      omega
    omega
  constructor
  · intro text m hf hm
    refine ⟨?_, happ text m hf hm, ?_⟩
    · rw [applyBudget, if_pos hm]
    · exact ⟨String.mk (text.data.drop (m - (footer m).length)),
        (jsSubstring_append_drop _ _).symm⟩
  · intro data cfg m hmc hf
    rw [jsonToLLMString, hmc]
    by_cases hm :
        m < (PREFIX_STR ++ "\n" ++ formatValue cfg (jsNormalize data) 0).length
    · rw [happ _ m hf hm]
    · rw [applyBudget, if_neg hm]
      omega

/-- Counterexample for C2 as stated: with `maxChars = 5` and the 10
character text `0123456789` the budget enforcer returns the bare 30
character footer, which is not of length 5 and exceeds the budget. -/
theorem c2_budget_counterexample :
    5 < "0123456789".length ∧
    (applyBudget "0123456789" (some 5)).length ≠ 5 ∧
    5 < (applyBudget "0123456789" (some 5)).length := by decide

/-- Witness for C2 (amended) at a concrete text and budget: 35 is at least
the footer length 31, and a 40 character text truncates to exactly 35
characters; the serializer output bound also applies. -/
theorem c2_budget_witness :
    (applyBudget "0123456789012345678901234567890123456789" (some 35)).length
      = 35 ∧
    (jsonToLLMString (.str "0123456789012345678901234567890123456789")
      { JSON_TO_LLM_DEFAULT_OPTIONS with maxChars := some 35 }).length ≤ 35 := by
  constructor
  · exact (c2_budget_amended.1 "0123456789012345678901234567890123456789" 35
      (by decide) (by decide)).2.1
  · exact c2_budget_amended.2 (.str "0123456789012345678901234567890123456789")
      { JSON_TO_LLM_DEFAULT_OPTIONS with maxChars := some 35 } 35 rfl
      (by decide)

/-- C4: a node whose `depth` exceeds `maxDepth` renders as the
`[Max depth reached]` marker and is not descended into (the result does
not depend on the value at all); a node at allowed depth renders normally
(scalars through `formatPrimitive`, empty containers as their markers);
and the spec scenario `serialize({a:{b:{c:{d:1}}}}, {maxDepth: 2})`
renders the depth 3 node as the marker with all shallower nodes rendered
normally. -/
theorem c4_max_depth_marker :
    (∀ (cfg : Config) (v w : JSTree) (d : Nat), cfg.maxDepth < (d : Int) →
      formatValue cfg v d = "[Max depth reached]" ∧
      formatValue cfg v d = formatValue cfg w d) ∧
    (∀ (cfg : Config) (v : JSTree) (d : Nat), isContainer v = false →
      (d : Int) ≤ cfg.maxDepth → formatValue cfg v d = formatPrimitive v) ∧
    (∀ (cfg : Config) (d : Nat), (d : Int) ≤ cfg.maxDepth →
      formatValue cfg (.arr []) d = "EmptyArray" ∧
      formatValue cfg (.obj []) d = "EmptyObject") ∧
    jsonToLLMString
      (.obj [("a", .obj [("b", .obj [("c", .obj [("d", .num (.finite "1"))])])])])
      { JSON_TO_LLM_DEFAULT_OPTIONS with maxDepth := 2 } =
      PREFIX_STR ++ "\na\n  b\n    c\n[Max depth reached]" := by
  have hmark : ∀ (cfg : Config) (v : JSTree) (d : Nat), cfg.maxDepth < (d : Int) →
      formatValue cfg v d = "[Max depth reached]" := by
    intro cfg v d h
    rw [formatValue.eq_def, if_pos h]
  refine ⟨fun cfg v w d h => ⟨hmark cfg v d h, by rw [hmark cfg v d h, hmark cfg w d h]⟩,
    ?_, ?_, ?_⟩
  · intro cfg v d hc h
    cases v with
    | arr items => simp [isContainer] at hc
    | obj fields => simp [isContainer] at hc
    | null => rw [formatValue.eq_def, if_neg (not_lt.mpr h)]
    | bool b => rw [formatValue.eq_def, if_neg (not_lt.mpr h)]
    | num n => rw [formatValue.eq_def, if_neg (not_lt.mpr h)]
    | str s => rw [formatValue.eq_def, if_neg (not_lt.mpr h)]
  · intro cfg d h
    constructor
    · rw [formatValue.eq_def, if_neg (not_lt.mpr h)]
      rfl
    · rw [formatValue.eq_def, if_neg (not_lt.mpr h)]
      simp [effectiveKeys]
  · have h3 : formatValue { JSON_TO_LLM_DEFAULT_OPTIONS with maxDepth := 2 }
        (.obj [("d", .num (.finite "1"))]) 3 = "[Max depth reached]" :=
      hmark _ _ 3 (by decide)
    have h2 : formatValue { JSON_TO_LLM_DEFAULT_OPTIONS with maxDepth := 2 }
        (.obj [("c", .obj [("d", .num (.finite "1"))])]) 2 =
        "    c\n[Max depth reached]" := by
      simp +decide [formatValue, effectiveKeys, orderedKeys, localeCompareLe,
        objGet, lookupJS, isNullOpt, isContainer, isArr, indentUnit, repeatStr,
        objKeyLines, strContainsChar, strStartsWith, strEndsWith,
        JSON_TO_LLM_DEFAULT_OPTIONS, List.insertionSort, List.orderedInsert,
        List.lookup, List.foldr, List.attach, List.attachWith, List.pmap, h3]
    have h1 : formatValue { JSON_TO_LLM_DEFAULT_OPTIONS with maxDepth := 2 }
        (.obj [("b", .obj [("c", .obj [("d", .num (.finite "1"))])])]) 1 =
        "  b\n    c\n[Max depth reached]" := by
      simp +decide [formatValue, effectiveKeys, orderedKeys, localeCompareLe,
        objGet, lookupJS, isNullOpt, isContainer, isArr, indentUnit, repeatStr,
        objKeyLines, strContainsChar, strStartsWith, strEndsWith,
        JSON_TO_LLM_DEFAULT_OPTIONS, List.insertionSort, List.orderedInsert,
        List.lookup, List.foldr, List.attach, List.attachWith, List.pmap, h2]
    have h0 : formatValue { JSON_TO_LLM_DEFAULT_OPTIONS with maxDepth := 2 }
        (.obj [("a", .obj [("b", .obj [("c", .obj [("d", .num (.finite "1"))])])])]) 0 =
        "a\n  b\n    c\n[Max depth reached]" := by
      simp +decide [formatValue, effectiveKeys, orderedKeys, localeCompareLe,
        objGet, lookupJS, isNullOpt, isContainer, isArr, indentUnit, repeatStr,
        objKeyLines, strContainsChar, strStartsWith, strEndsWith,
        JSON_TO_LLM_DEFAULT_OPTIONS, List.insertionSort, List.orderedInsert,
        List.lookup, List.foldr, List.attach, List.attachWith, List.pmap, h1]
    have hnorm : jsNormalize
        (.obj [("a", .obj [("b", .obj [("c", .obj [("d", .num (.finite "1"))])])])]) =
        (.obj [("a", .obj [("b", .obj [("c", .obj [("d", .num (.finite "1"))])])])]) := by
      simp [jsNormalize, List.attach, List.attachWith, List.pmap]
    rw [jsonToLLMString, hnorm]
    rw [h0]
    rfl

/-- Witness for C4 at concrete inputs: depth 11 exceeds the default
`maxDepth` 10 and renders the marker for any value, while depth 0 renders a
scalar and an empty array normally. -/
theorem c4_max_depth_witness :
    formatValue JSON_TO_LLM_DEFAULT_OPTIONS (.str "x") 11 =
      "[Max depth reached]" ∧
    formatValue JSON_TO_LLM_DEFAULT_OPTIONS (.str "x") 0 =
      formatPrimitive (.str "x") ∧
    formatValue JSON_TO_LLM_DEFAULT_OPTIONS (.arr []) 5 = "EmptyArray" := by
  obtain ⟨hm, hp, he, -⟩ := c4_max_depth_marker
  exact ⟨(hm JSON_TO_LLM_DEFAULT_OPTIONS (.str "x") .null 11 (by decide)).1,
    hp JSON_TO_LLM_DEFAULT_OPTIONS (.str "x") 0 (by decide) (by decide),
    (he JSON_TO_LLM_DEFAULT_OPTIONS 5 (by decide)).1⟩

/-- C6 (amended): `formatPrimitive` itself renders the special numbers as
`NaN`, `Infinity`, `-Infinity` and `-0` (never as `null`), and `formatValue`
reaches it unchanged for every scalar at an allowed depth; but the
`JSON.parse(JSON.stringify(data))` normalization that `jsonToLLMString`
performs first converts `NaN` and the infinities to `null` and `-0` to
plain `0`, so through the entry point those specials render as `null`
(respectively `0`), exactly as the tests of `part_004` assert. -/
theorem c6_number_formatting_amended :
    formatPrimitive (.num .nan) = "NaN" ∧
    formatPrimitive (.num .posInf) = "Infinity" ∧
    formatPrimitive (.num .negInf) = "-Infinity" ∧
    formatPrimitive (.num .negZero) = "-0" ∧
    (∀ lit : String, formatPrimitive (.num (.finite lit)) = lit) ∧
    formatPrimitive (.num .nan) ≠ "null" ∧
    formatPrimitive (.num .posInf) ≠ "null" ∧
    formatPrimitive (.num .negInf) ≠ "null" ∧
    formatPrimitive (.num .negZero) ≠ "null" ∧
    (∀ (cfg : Config) (n : JSNumber) (d : Nat), (d : Int) ≤ cfg.maxDepth →
      formatValue cfg (.num n) d = formatPrimitive (.num n)) ∧
    jsNormalize (.num .nan) = .null ∧
    jsNormalize (.num .posInf) = .null ∧
    jsNormalize (.num .negInf) = .null ∧
    jsNormalize (.num .negZero) = .num (.finite "0") ∧
    jsonToLLMString (.num .nan) JSON_TO_LLM_DEFAULT_OPTIONS =
      PREFIX_STR ++ "\nnull" ∧
    jsonToLLMString (.num .posInf) JSON_TO_LLM_DEFAULT_OPTIONS =
      PREFIX_STR ++ "\nnull" ∧
    jsonToLLMString (.num .negInf) JSON_TO_LLM_DEFAULT_OPTIONS =
      PREFIX_STR ++ "\nnull" ∧
    jsonToLLMString (.num .negZero) JSON_TO_LLM_DEFAULT_OPTIONS =
      PREFIX_STR ++ "\n0" := by
  have hfv : ∀ (cfg : Config) (n : JSNumber) (d : Nat), (d : Int) ≤ cfg.maxDepth →
      formatValue cfg (.num n) d = formatPrimitive (.num n) := by
    intro cfg n d h
    rw [formatValue.eq_def, if_neg (not_lt.mpr h)]
  have hrun : ∀ t : JSTree, isContainer (jsNormalize t) = false →
      jsonToLLMString t JSON_TO_LLM_DEFAULT_OPTIONS =
        PREFIX_STR ++ "\n" ++ formatPrimitive (jsNormalize t) := by
    intro t hc
    rw [jsonToLLMString]
    show applyBudget (PREFIX_STR ++ "\n" ++
      formatValue JSON_TO_LLM_DEFAULT_OPTIONS (jsNormalize t) 0) .none = _
    rw [applyBudget]
    cases hv : jsNormalize t with
    | arr items => rw [hv] at hc; simp [isContainer] at hc
    | obj fields => rw [hv] at hc; simp [isContainer] at hc
    | null => rw [formatValue.eq_def, if_neg (by decide)]
    | bool b => rw [formatValue.eq_def, if_neg (by decide)]
    | num n => rw [formatValue.eq_def, if_neg (by decide)]
    | str s => rw [formatValue.eq_def, if_neg (by decide)]
  refine ⟨rfl, rfl, rfl, rfl, fun lit => rfl, by decide, by decide, by decide,
    by decide, hfv, by simp [jsNormalize], by simp [jsNormalize],
    by simp [jsNormalize], by simp [jsNormalize], ?_, ?_, ?_, ?_⟩
  · rw [hrun (.num .nan) (by simp [jsNormalize, isContainer])]
    simp only [jsNormalize, formatPrimitive]
    rw [String.append_assoc]
    rfl
  · rw [hrun (.num .posInf) (by simp [jsNormalize, isContainer])]
    simp only [jsNormalize, formatPrimitive]
    rw [String.append_assoc]
    rfl
  · rw [hrun (.num .negInf) (by simp [jsNormalize, isContainer])]
    simp only [jsNormalize, formatPrimitive]
    rw [String.append_assoc]
    rfl
  · rw [hrun (.num .negZero) (by simp [jsNormalize, isContainer])]
    simp only [jsNormalize, formatPrimitive]
    rw [String.append_assoc]
    rfl

/-- Counterexample for C6 as stated: a `NaN` input to the `part_004`
serializer renders as `null` (after JSON normalization), not as `NaN` —
matching the test `expect(jsonToLLMString(NaN)).toBe(PREFIX + '\nnull')`
of the repository. -/
theorem c6_number_counterexample :
    jsonToLLMString (.num .nan) JSON_TO_LLM_DEFAULT_OPTIONS =
      PREFIX_STR ++ "\nnull" ∧
    PREFIX_STR ++ "\nnull" ≠ PREFIX_STR ++ "\nNaN" := by
  constructor
  · rw [jsonToLLMString]
    show applyBudget (PREFIX_STR ++ "\n" ++
      formatValue JSON_TO_LLM_DEFAULT_OPTIONS (jsNormalize (.num .nan)) 0)
      Option.none = _
    rw [applyBudget]
    rw [show jsNormalize (JSTree.num .nan) = JSTree.null from by
      simp [jsNormalize]]
    rw [formatValue.eq_def, if_neg (by decide)]
    rw [String.append_assoc]
    rfl
  · decide

/-- Witness for C6 (amended) at concrete inputs. -/
theorem c6_number_witness :
    formatValue JSON_TO_LLM_DEFAULT_OPTIONS (.num .nan) 0 =
      formatPrimitive (.num .nan) ∧
    formatPrimitive (.num (.finite "42")) = "42" := by
  obtain ⟨-, -, -, -, hfin, -, -, -, -, hfv, -⟩ := c6_number_formatting_amended
  exact ⟨hfv JSON_TO_LLM_DEFAULT_OPTIONS .nan 0 (by decide), hfin "42"⟩

/-- C8 (amended): `part_004` performs no configuration validation at all:
an out-of-domain configuration value is neither reported as a failure nor
clamped; with a negative `maxDepth` the serializer succeeds and renders the
whole tree, whatever it is, as the single `[Max depth reached]` marker
below the header. -/
theorem c8_config_amended (v : JSTree) (cfg : Config)
    (hneg : cfg.maxDepth < 0) (hmc : cfg.maxChars = .none) :
    jsonToLLMString v cfg = PREFIX_STR ++ "\n[Max depth reached]" := by
  rw [jsonToLLMString]
  show applyBudget (PREFIX_STR ++ "\n" ++
    formatValue cfg (jsNormalize v) 0) cfg.maxChars = _
  rw [hmc, applyBudget]
  rw [formatValue.eq_def, if_pos (by exact_mod_cast hneg)]
  rw [String.append_assoc]
  rfl

/-- Counterexample for C8 as stated: with the out-of-domain configuration
`maxDepth = -1` the graph-level serializer does not fail — it returns an
`Except.ok` result (the header plus the depth marker) instead of reporting
a malformed-configuration failure. -/
theorem c8_config_counterexample :
    V2.jsonToLLMStringG
      (fun n => if n = 0 then JSObj.obj [("a", .num (.finite "1"))] else JSObj.obj [])
      (.ref 0)
      { ignoreFalsy := true, maxDepth := -1, sortKeys := .asc,
        maxChars := .none, arrayFormat := .auto } 5 =
      .ok (PREFIX_STR ++ "\n[Max depth reached]") := by
  have hn : normalizeG
      (fun n => if n = 0 then JSObj.obj [("a", .num (.finite "1"))] else JSObj.obj [])
      5 [] (.ref 0) =
      some (.ok (.obj [("a", .num (.finite "1"))])) := rfl
  rw [jsonToLLMStringG, hn]
  show Except.ok (applyBudget _ Option.none) = _
  rw [applyBudget]
  rw [formatValue.eq_def, if_pos (by decide)]
  rw [String.append_assoc]
  rfl

/-- Witness for C8 (amended) at a concrete tree and configuration. -/
theorem c8_config_witness :
    jsonToLLMString (.obj [("a", .num (.finite "1"))])
      { ignoreFalsy := true, maxDepth := -1, sortKeys := .asc,
        maxChars := .none, arrayFormat := .auto } =
      PREFIX_STR ++ "\n[Max depth reached]" :=
  c8_config_amended (.obj [("a", .num (.finite "1"))])
    { ignoreFalsy := true, maxDepth := -1, sortKeys := .asc,
      maxChars := .none, arrayFormat := .auto } (by decide) rfl

/-- C10: with `maxChars` unbounded, every successful `part_004` result is
the fixed `PREFIX` header line, a newline and then the rendered body —
never the body alone.  The first conjunct is the tree-level entry point,
the second the graph-level entry point with its normalization step. -/
theorem c10_prefix_header :
    (∀ (data : JSTree) (cfg : Config), cfg.maxChars = .none →
      jsonToLLMString data cfg =
        PREFIX_STR ++ "\n" ++ formatValue cfg (jsNormalize data) 0) ∧
    (∀ (h : Heap) (data : JSVal) (cfg : Config) (fuel : Nat) (out : String),
      cfg.maxChars = .none → jsonToLLMStringG h data cfg fuel = .ok out →
      ∃ t : JSTree, normalizeG h fuel [] data = some (.ok t) ∧
        out = PREFIX_STR ++ "\n" ++ formatValue cfg t 0) := by
  constructor
  · intro data cfg hmc
    rw [jsonToLLMString]
    show applyBudget (PREFIX_STR ++ "\n" ++
      formatValue cfg (jsNormalize data) 0) cfg.maxChars = _
    rw [hmc, applyBudget]
  · intro h data cfg fuel out hmc hok
    rw [jsonToLLMStringG] at hok
    cases hn : normalizeG h fuel [] data with
    | none => rw [hn] at hok; exact absurd hok (by simp)
    | some r =>
      cases r with
      | error e => rw [hn] at hok; exact absurd hok (by simp)
      | ok t =>
        rw [hn] at hok
        simp only [Except.ok.injEq] at hok
        refine ⟨t, rfl, ?_⟩
        rw [← hok, hmc, applyBudget]

/-- Witness for C7 at a concrete object and mode, applying the claim
theorem. -/
theorem c7_keys_witness :
    orderedKeys SortKeysOption.none (effectiveKeys false [("a", JSTree.null)]) =
      effectiveKeys false [("a", JSTree.null)] :=
  (c7_keys_membership_and_order false [("a", JSTree.null)]).2.2.2.2

/-- Witness for C10 at a concrete input and the default (unbounded)
configuration. -/
theorem c10_prefix_header_witness :
    jsonToLLMString (.bool true) JSON_TO_LLM_DEFAULT_OPTIONS =
      PREFIX_STR ++ "\n" ++
        formatValue JSON_TO_LLM_DEFAULT_OPTIONS (jsNormalize (.bool true)) 0 :=
  c10_prefix_header.1 (.bool true) JSON_TO_LLM_DEFAULT_OPTIONS rfl

end V2

namespace Legacy

theorem arrItemStep_foldl_isSome
    (go : JSVal → List Nat → Option (String × List Nat))
    (hgo : ∀ v vis, (go v vis).isSome) (indent : String) :
    ∀ (l : List (Nat × JSVal)) (lines : List String) (vis : List Nat),
      (l.foldl (arrItemStep go indent) (some (lines, vis))).isSome := by
  intro l
  induction l with
  | nil => intro lines vis; simp
  | cons p rest ih =>
    intro lines vis
    rw [List.foldl_cons]
    obtain ⟨⟨itemStr, vis2⟩, hr⟩ := Option.isSome_iff_exists.mp (hgo p.2 vis)
    simp only [arrItemStep, hr]
    exact ih _ _

theorem objKeyStep_foldl_isSome (h : Heap)
    (go : JSVal → String → List Nat → Option (String × List Nat))
    (hgo : ∀ v k vis, (go v k vis).isSome)
    (fields : List (String × JSVal)) (indent : String) :
    ∀ (l : List String) (lines : List String) (vis : List Nat),
      (l.foldl (objKeyStep h go fields indent) (some (lines, vis))).isSome := by
  intro l
  induction l with
  | nil => intro lines vis; simp
  | cons key rest ih =>
    intro lines vis
    rw [List.foldl_cons]
    cases hv : objGetV fields key with
    | null => simp only [objKeyStep, hv]; exact ih _ _
    | bool b => simp only [objKeyStep, hv]; exact ih _ _
    | num n => simp only [objKeyStep, hv]; exact ih _ _
    | str s => simp only [objKeyStep, hv]; exact ih _ _
    | ref vid =>
      cases hh : h vid with
      | arr items =>
        cases items with
        | nil => simp only [objKeyStep, hv, hh]; exact ih _ _
        | cons a as =>
          obtain ⟨⟨nested, vis2⟩, hr⟩ :=
            Option.isSome_iff_exists.mp (hgo (.ref vid) key vis)
          simp only [objKeyStep, hv, hh, hr]
          exact ih _ _
      | obj flds =>
        cases flds with
        | nil => simp only [objKeyStep, hv, hh]; exact ih _ _
        | cons a as =>
          obtain ⟨⟨nested, vis2⟩, hr⟩ :=
            Option.isSome_iff_exists.mp (hgo (.ref vid) key vis)
          simp only [objKeyStep, hv, hh, hr]
          exact ih _ _

/-- The model fuel is irrelevant as soon as it exceeds the remaining depth
budget: the legacy body always returns a result (the source function always
terminates, because every recursive call increases `indentation` by one and
`indentation > maxDepth` returns at once). -/
theorem evalL_isSome (h : Heap) :
    ∀ (fuel : Nat) (data : JSVal) (ind mD : Nat) (vis : List Nat)
      (pk : String) (mL mA : Nat), mD + 1 < fuel + ind → 0 < fuel →
      (evalL h fuel data ind mD vis pk mL mA).isSome := by
  intro fuel
  induction fuel with
  | zero => intro _d _i _m _v _p _l _a h1 h2; exact absurd h2 (lt_irrefl 0)
  | succ fuel ih =>
    intro data ind mD vis pk mL mA hlt _
    by_cases hind : mD < ind
    · simp only [evalL, if_pos hind]
      simp
    have hfuel : 0 < fuel := by omega
    have hgo : ∀ v vis2,
        (evalL h fuel v (ind + 1) mD vis2 pk mL mA).isSome :=
      fun v vis2 => ih v (ind + 1) mD vis2 pk mL mA (by omega) hfuel
    have hgo2 : ∀ v k vis2,
        (evalL h fuel v (ind + 1) mD vis2 k mL mA).isSome :=
      fun v k vis2 => ih v (ind + 1) mD vis2 k mL mA (by omega) hfuel
    cases data with
    | null => simp only [evalL, if_neg hind]; simp
    | bool b => simp only [evalL, if_neg hind]; simp
    | num n => simp only [evalL, if_neg hind]; simp
    | str s => simp only [evalL, if_neg hind]; simp
    | ref id =>
      simp only [evalL, if_neg hind]
      by_cases hmem : id ∈ vis
      · simp [hmem]
      cases hobj : h id with
      | arr items =>
        simp only [hobj, if_neg hmem]
        by_cases hlen : items.length = 0
        · simp [hlen]
        simp only [if_neg hlen]
        by_cases hsimple : (items.take mA).all isSimpleVal
        · simp [hsimple]
        simp only [hsimple, Bool.false_eq_true, if_false]
        obtain ⟨⟨lines, visOut⟩, hfold⟩ := Option.isSome_iff_exists.mp
          (arrItemStep_foldl_isSome _ hgo _ (items.take mA).enum [] (id :: vis))
        rw [hfold]
        simp
      | obj fields =>
        simp only [hobj, if_neg hmem]
        by_cases hlen : (fields.map Prod.fst).length = 0
        · simp [hlen]
        simp only [if_neg hlen]
        obtain ⟨⟨lines, visOut⟩, hfold⟩ := Option.isSome_iff_exists.mp
          (objKeyStep_foldl_isSome h _ hgo2 fields _ (fields.map Prod.fst) []
            (id :: vis))
        rw [hfold]
        simp

/-- C1 (amended): on the legacy serializer a self-referencing object
(`obj.self = obj`) renders as exactly the single line
`Self: [Circular reference]` — one marker, substituted locally at the
self-reference site — and the legacy serializer never loops and never
aborts: it returns a result for every input.  The `part_004` serializer
instead aborts the whole call with a `Circular structure detected` error
raised by its JSON normalization (see the counterexample). -/
theorem c1_circular_amended :
    (∀ (jp : String → Option JSVal) (h : Heap) (i : Nat) (mD mL mA : Nat),
      h i = .obj [("self", .ref i)] → 1 ≤ mD →
      Legacy.jsonToLLMString jp h (.ref i) mD mL mA =
        some "Self: [Circular reference]") ∧
    (∀ (jp : String → Option JSVal) (h : Heap) (data : JSVal)
      (mD mL mA : Nat),
      (Legacy.jsonToLLMString jp h data mD mL mA).isSome) := by
  constructor
  · intro jp h i mD mL mA hi hmd
    have hmd0 : ¬ (mD < 0) := by omega
    have hmd1 : ¬ (mD < 1) := by omega
    have hget : objGetV [("self", JSVal.ref i)] "self" = JSVal.ref i := by
      simp [objGetV, List.lookup]
    have hlab : getSemanticLabel "self" = "Self" := by decide
    have hmdz : mD ≠ 0 := by omega
    have houter : evalL h (mD + 2) (.ref i) 0 mD [] "" mL mA =
        some ("Self: [Circular reference]", [i]) := by
      rw [show mD + 2 = (mD + 1) + 1 from rfl]
      simp only [evalL, if_neg hmd0]
      simp only [List.not_mem_nil, if_false, hi]
      simp +decide [hget, hlab, objKeyStep, V2.repeatStr, V2.strContainsChar]
      simp +decide [hi, hmdz]
    rw [Legacy.jsonToLLMString]
    · rw [houter]
      rfl
    · exact fun s hs => JSVal.noConfusion hs
  · intro jp h data mD mL mA
    cases data with
    | str s =>
      rw [Legacy.jsonToLLMString]
      cases hp : jp s with
      | none => simp
      | some parsed =>
        rw [Option.isSome_map']
        exact evalL_isSome h (mD + 2) parsed 0 mD [] "" mL mA (by omega)
          (by omega)
    | null =>
      rw [Legacy.jsonToLLMString]
      · rw [Option.isSome_map']
        exact evalL_isSome h (mD + 2) _ 0 mD [] "" mL mA (by omega) (by omega)
      · exact fun s hs => JSVal.noConfusion hs
    | bool b =>
      rw [Legacy.jsonToLLMString]
      · rw [Option.isSome_map']
        exact evalL_isSome h (mD + 2) _ 0 mD [] "" mL mA (by omega) (by omega)
      · exact fun s hs => JSVal.noConfusion hs
    | num n =>
      rw [Legacy.jsonToLLMString]
      · rw [Option.isSome_map']
        exact evalL_isSome h (mD + 2) _ 0 mD [] "" mL mA (by omega) (by omega)
      · exact fun s hs => JSVal.noConfusion hs
    | ref id =>
      rw [Legacy.jsonToLLMString]
      · rw [Option.isSome_map']
        exact evalL_isSome h (mD + 2) _ 0 mD [] "" mL mA (by omega) (by omega)
      · exact fun s hs => JSVal.noConfusion hs

/-- Counterexample for C1 as stated: the `part_004` serializer, whose cited
lines 58-75 are part of the claim, does not substitute a marker for the
self-referencing object `{name: 'test', self: <itself>}` — it aborts the
whole call with the `Circular structure detected` error (exactly as the
repository test asserts). -/
theorem c1_circular_counterexample :
    V2.jsonToLLMStringG
      (fun n => if n = 0 then
        JSObj.obj [("name", .str "test"), ("self", .ref 0)]
      else JSObj.obj [])
      (.ref 0) V2.JSON_TO_LLM_DEFAULT_OPTIONS 5 =
      .error "Circular structure detected - cannot serialize to JSON" := rfl

/-- Witness for C1 (amended) on a concrete self-referencing heap and the
default parameters, plus the never-aborts conjunct at a concrete input. -/
theorem c1_circular_witness :
    Legacy.jsonToLLMString (fun _ => none)
      (fun n => if n = 0 then JSObj.obj [("self", .ref 0)] else JSObj.obj [])
      (.ref 0) 10 1000 50 = some "Self: [Circular reference]" ∧
    (Legacy.jsonToLLMString (fun _ => none)
      (fun _ => JSObj.obj []) (.bool true) 10 1000 50).isSome := by
  constructor
  · exact c1_circular_amended.1 (fun _ => none)
      (fun n => if n = 0 then JSObj.obj [("self", .ref 0)] else JSObj.obj [])
      0 10 1000 50 rfl (by omega)
  · exact c1_circular_amended.2 (fun _ => none) (fun _ => JSObj.obj [])
      (.bool true) 10 1000 50

/-- C3: the legacy serializer flags legal aliasing as circular.  With the
shared non-cyclic object `{x: 1}` referenced by the two sibling keys `a`
and `b`, the first occurrence renders fully and the second renders as a
false-positive `[Circular reference]` marker, because the visited set is
global and never popped; the `part_004` serializer renders the shared
object fully at both sites (its JSON normalization copies it).  This
evaluates the code at the failing input of the code_bug report. -/
theorem c3_aliasing_code_bug :
    Legacy.jsonToLLMString (fun _ => none)
      (fun n => if n = 0 then JSObj.obj [("a", .ref 1), ("b", .ref 1)]
        else if n = 1 then JSObj.obj [("x", .num (.finite "1"))]
        else JSObj.obj [])
      (.ref 0) 10 1000 50 =
      some "A:   X: 1\nB: [Circular reference]" ∧
    V2.jsonToLLMStringG
      (fun n => if n = 0 then JSObj.obj [("a", .ref 1), ("b", .ref 1)]
        else if n = 1 then JSObj.obj [("x", .num (.finite "1"))]
        else JSObj.obj [])
      (.ref 0) V2.JSON_TO_LLM_DEFAULT_OPTIONS 5 =
      .ok (V2.PREFIX_STR ++ "\na\n  x 1\nb\n  x 1") := by
  constructor
  · decide
  · have hn : V2.normalizeG
        (fun n => if n = 0 then JSObj.obj [("a", .ref 1), ("b", .ref 1)]
          else if n = 1 then JSObj.obj [("x", .num (.finite "1"))]
          else JSObj.obj [])
        5 [] (.ref 0) =
        some (.ok (.obj [("a", .obj [("x", .num (.finite "1"))]),
          ("b", .obj [("x", .num (.finite "1"))])])) := rfl
    rw [V2.jsonToLLMStringG, hn]
    have hx : V2.formatValue V2.JSON_TO_LLM_DEFAULT_OPTIONS
        (.obj [("x", .num (.finite "1"))]) 1 = "  x 1" := by
      simp +decide [V2.formatValue, V2.effectiveKeys, V2.orderedKeys,
        V2.localeCompareLe, V2.objGet, V2.lookupJS, V2.isNullOpt,
        V2.isContainer, V2.isArr, V2.indentUnit, V2.repeatStr, V2.objKeyLines,
        V2.strContainsChar, V2.strStartsWith, V2.strEndsWith,
        V2.formatPrimitive, V2.JSON_TO_LLM_DEFAULT_OPTIONS,
        List.insertionSort, List.orderedInsert, List.lookup, List.foldr,
        List.attach, List.attachWith, List.pmap]
    have h0 : V2.formatValue V2.JSON_TO_LLM_DEFAULT_OPTIONS
        (.obj [("a", .obj [("x", .num (.finite "1"))]),
          ("b", .obj [("x", .num (.finite "1"))])]) 0 =
        "a\n  x 1\nb\n  x 1" := by
      simp +decide [V2.formatValue, V2.effectiveKeys, V2.orderedKeys,
        V2.localeCompareLe, V2.objGet, V2.lookupJS, V2.isNullOpt,
        V2.isContainer, V2.isArr, V2.indentUnit, V2.repeatStr, V2.objKeyLines,
        V2.strContainsChar, V2.strStartsWith, V2.strEndsWith,
        V2.formatPrimitive, V2.JSON_TO_LLM_DEFAULT_OPTIONS,
        List.insertionSort, List.orderedInsert, List.lookup, List.foldr,
        List.attach, List.attachWith, List.pmap, hx]
    show Except.ok (V2.applyBudget _ Option.none) = _
    rw [V2.applyBudget, h0]
    rfl

/-- C9 (amended): in the legacy serializer, string truncation applies only
to the recursive primitive path — a root-level string that fails JSON
parsing, and strings reached through recursion (items of non-simple
arrays) — while a string that is the value of an object property is
rendered through `renderPropPrim` in full, with no truncation and no
escaping; within-limit strings render unchanged everywhere. -/
theorem c9_string_truncation_amended :
    (∀ (jp : String → Option JSVal) (h : Heap) (s : String) (mD mL mA : Nat),
      jp s = none → mL < s.length →
      Legacy.jsonToLLMString jp h (.str s) mD mL mA =
        some (V2.jsSubstring s mL ++ "... [truncated]")) ∧
    (∀ (jp : String → Option JSVal) (h : Heap) (s : String) (mD mL mA : Nat),
      jp s = none → s.length ≤ mL →
      Legacy.jsonToLLMString jp h (.str s) mD mL mA = some s) ∧
    (∀ (s : String) (mL : Nat), mL < s.length →
      renderPrim (.str s) mL = V2.jsSubstring s mL ++ "... [truncated]") ∧
    (∀ s : String, renderPropPrim (.str s) = s) := by
  refine ⟨?_, ?_, ?_, fun s => rfl⟩
  · intro jp h s mD mL mA hp hlen
    rw [Legacy.jsonToLLMString, hp]
    rw [if_pos hlen]
  · intro jp h s mD mL mA hp hlen
    rw [Legacy.jsonToLLMString, hp]
    rw [if_neg (by omega)]
  · intro s mL hlen
    rw [renderPrim, if_pos hlen]

/-- Counterexample for C9 as stated: with `maxLength = 3`, the six
character string value of the object property `a` renders in full as
`A: abcdef` — no truncation marker is produced at an object property
site. -/
theorem c9_string_truncation_counterexample :
    Legacy.jsonToLLMString (fun _ => none)
      (fun n => if n = 0 then JSObj.obj [("a", .str "abcdef")]
        else JSObj.obj [])
      (.ref 0) 10 3 50 = some "A: abcdef" ∧
    "A: abcdef" ≠ "A: " ++ V2.jsSubstring "abcdef" 3 ++ "... [truncated]" := by
  constructor
  · decide
  · decide

/-- Witness for C9 (amended) at a concrete root string and limits. -/
theorem c9_string_truncation_witness :
    Legacy.jsonToLLMString (fun _ => none) (fun _ => JSObj.obj [])
      (.str "abcdef") 10 3 50 = some (V2.jsSubstring "abcdef" 3 ++ "... [truncated]") ∧
    Legacy.jsonToLLMString (fun _ => none) (fun _ => JSObj.obj [])
      (.str "ab") 10 3 50 = some "ab" := by
  constructor
  · exact c9_string_truncation_amended.1 (fun _ => none) (fun _ => JSObj.obj [])
      "abcdef" 10 3 50 rfl (by decide)
  · exact c9_string_truncation_amended.2.1 (fun _ => none)
      (fun _ => JSObj.obj []) "ab" 10 3 50 rfl (by decide)

end Legacy

end Octo
